import Mathlib

/-!
Shallow embedding of `src/src/animation/animation_system.cpp`
(class `AnimationSceneImpl` of the Lumix engine animation plugin).

The slot table `m_animables` is a `List Animable`; machine floats
(`m_time`, clip lengths, `time_delta`) are modelled as exact rationals;
entity handles are their raw integer indices.  External collaborators
(the render scene, the resource manager, the blob primitives) are
parameters or small models, each marked in its doc comment.
-/

namespace Lumix

/-- Modelled from the spec: component kinds are identified by hashed
type names (`crc32("animable")`, `crc32("renderable")`); only the
distinctness of the two tags matters here, so they are two distinct
constants. -/
def ANIMABLE_HASH : Nat := 1

/-- Modelled from the spec: the hashed tag of the renderable component
kind, distinct from `ANIMABLE_HASH`. -/
def RENDERABLE_HASH : Nat := 2

/-- Modelled from the spec: a component handle `{entity, componentKind,
scene, index}`.  The scene pointer is dropped (a single scene is in
play); `index` is an `Int` so the invalid handle can carry `-1`. -/
structure Component where
  entity : Int
  ctype : Nat
  index : Int
deriving DecidableEq, Repr

/-- Modelled from the spec: the invalid component handle. -/
def Component.INVALID : Component := ⟨-1, 0, -1⟩

/-- Modelled from the spec: a handle is valid iff it is not the
invalid handle; concretely its slot index is non-negative. -/
def Component.isValid (c : Component) : Bool := c.index ≥ 0

/-- Modelled from the spec: an animation clip resource with a path, a
length, a frame count, a playback rate and a readiness flag. -/
structure Animation where
  path : String
  length : ℚ
  frameCount : Int
  fps : ℚ
  ready : Bool
deriving DecidableEq, Repr

/-- The per-slot state `AnimationSceneImpl::Animable`: `m_manual`,
`m_is_free`, `m_renderable`, `m_time`, `m_animation` (a nullable
pointer, hence `Option`), `m_entity` (raw entity index). -/
structure Animable where
  m_manual : Bool
  m_is_free : Bool
  m_renderable : Component
  m_time : ℚ
  m_animation : Option Animation
  m_entity : Int
deriving DecidableEq, Repr

/-- Scan of `getAnimable`'s loop starting at position `k`: the first
slot whose `m_entity` matches is returned as a component handle (the
free flag is not consulted by the source). -/
def getAnimableFrom (entity : Int) (k : Nat) : List Animable → Component
  | [] => Component.INVALID
  | a :: rest =>
      if a.m_entity = entity then ⟨entity, ANIMABLE_HASH, (k : Int)⟩
      else getAnimableFrom entity (k + 1) rest

/-- `AnimationSceneImpl::getAnimable`: linear scan over all slots for
one whose entity matches; returns the invalid handle otherwise. -/
def getAnimable (slots : List Animable) (entity : Int) : Component :=
  getAnimableFrom entity 0 slots

/-- Index of the first free slot (the scan at the top of
`createAnimable`), if any. -/
def firstFreeIdx : List Animable → Option Nat
  | [] => none
  | a :: rest =>
      if a.m_is_free then some 0
      else (firstFreeIdx rest).map (· + 1)

/-- The slot contents written by `createAnimable`: manual mode on,
time 0, not free, no animation, and the renderable binding first set
invalid then overwritten with the render scene's binding for the
entity when that binding is valid.  `rs` is the external
`RenderScene::getRenderable` query. -/
def initAnimable (rs : Int → Component) (entity : Int) : Animable :=
  let renderable := rs entity
  { m_manual := true
    m_time := 0
    m_is_free := false
    m_renderable := if renderable.isValid then renderable else Component.INVALID
    m_animation := none
    m_entity := entity }

/-- The loop body of `onComponentCreated`: attach the component to the
first slot whose entity matches (`break` after the first hit); neither
the free flag nor the current binding's validity is consulted. -/
def attachRenderable (cmp : Component) : List Animable → List Animable
  | [] => []
  | a :: rest =>
      if a.m_entity = cmp.entity then { a with m_renderable := cmp } :: rest
      else a :: attachRenderable cmp rest

/-- `AnimationSceneImpl::onComponentCreated`: reacts only to renderable
components. -/
def onComponentCreated (cmp : Component) (slots : List Animable) : List Animable :=
  if cmp.ctype = RENDERABLE_HASH then attachRenderable cmp slots else slots

/-- Index of the slot `createAnimable` initializes: the first free slot
if one exists, else the appended position at the end of the table. -/
def initIndex (slots : List Animable) : Nat :=
  (firstFreeIdx slots).getD slots.length

/-- `AnimationSceneImpl::createAnimable`.  Returns the component handle
built by `Universe::addComponent` (whose index is `m_animables.size() - 1`
as in the source, whether or not a free slot was reused), the new slot
table, and the list of `componentCreated` notifications invoked.  The
scene is itself subscribed to that signal, so `onComponentCreated` is
applied to the emitted handle (a no-op for an animable-typed handle). -/
def createAnimable (rs : Int → Component) (slots : List Animable) (entity : Int) :
    Component × List Animable × List Component :=
  let a := initAnimable rs entity
  let slots' :=
    match firstFreeIdx slots with
    | some i => slots.set i a
    | none => slots ++ [a]
  let cmp : Component := ⟨entity, ANIMABLE_HASH, (slots'.length : Int) - 1⟩
  (cmp, onComponentCreated cmp slots', [cmp])

/-- `AnimationSceneImpl::createComponent`: dispatch on the component
type; anything but animable yields the invalid handle, the unchanged
table and no notification. -/
def createComponent (rs : Int → Component) (ctype : Nat) (entity : Int)
    (slots : List Animable) : Component × List Animable × List Component :=
  if ctype = ANIMABLE_HASH then createAnimable rs slots entity
  else (Component.INVALID, slots, [])

/-- `AnimationSceneImpl::destroyComponent`: mark the slot at the
handle's index free (the other fields are not cleared).  The source
indexes the array unchecked; an out-of-range index is left as the
identity here. -/
def destroyComponent (slots : List Animable) (cmp : Component) : List Animable :=
  match slots.get? cmp.index.toNat with
  | some a => slots.set cmp.index.toNat { a with m_is_free := true }
  | none => slots

/-- `AnimationSceneImpl::playAnimation`: load the clip for the path
(`rm` is the external resource manager, keyed by path), reset time to
0 and leave manual mode. -/
def playAnimation (rm : String → Animation) (slots : List Animable)
    (cmp : Component) (path : String) : List Animable :=
  match slots.get? cmp.index.toNat with
  | some a =>
      slots.set cmp.index.toNat
        { a with m_animation := some (rm path), m_time := 0, m_manual := false }
  | none => slots

/-- The `while (t > l) t -= l;` loop of `update`, as a function of the
clip length `l` and the advanced time `t`.  The source loop terminates
only for a positive length, hence the `0 < l` guard on the recursive
call; all uses have `0 < l`. -/
def wrapTime (l : ℚ) (t : ℚ) : ℚ :=
  if h : 0 < l ∧ l < t then wrapTime l (t - l) else t
termination_by (Int.ceil (t / l)).toNat
decreasing_by
  have hl : 0 < l := h.1
  have ht : 1 < t / l := (one_lt_div hl).mpr h.2
  have hsub : (t - l) / l = t / l - 1 := by
    field_simp
  rw [hsub, Int.ceil_sub_one]
  have h2 : (2 : ℤ) ≤ Int.ceil (t / l) := by
    have h1 : (1 : ℤ) < Int.ceil (t / l) := Int.lt_ceil.mpr (by exact_mod_cast ht)
    omega
  omega

/-- A pose write performed by `update`: the renderable binding written
through and the time the clip was sampled at (`Animation::getPose`
writing into the render scene's pose buffer is external; only the
write's occurrence and arguments are modelled). -/
def PoseWrite := Component × ℚ
deriving DecidableEq

/-- The body of `update`'s loop for one slot.  A non-free slot with a
present, ready animation samples the pose through
`m_renderable.scene`; that pointer is null exactly when the binding is
the invalid handle, so the unchecked `getPose` call there is modelled
as a crash (`Except.error`).  A non-manual slot then advances and
wraps its time. -/
def updateAnimable (time_delta : ℚ) (a : Animable) :
    Except Unit (Animable × List PoseWrite) :=
  match a.m_animation with
  | none => .ok (a, [])
  | some anim =>
      if a.m_is_free then .ok (a, [])
      else if ¬anim.ready then .ok (a, [])
      else if ¬a.m_renderable.isValid then .error ()
      else
        let write : PoseWrite := (a.m_renderable, a.m_time)
        if a.m_manual then .ok (a, [write])
        else .ok ({ a with m_time := wrapTime anim.length (a.m_time + time_delta) }, [write])

/-- `AnimationSceneImpl::update`: every slot is visited in order; the
pose writes are collected, and the first crash aborts. -/
def update (time_delta : ℚ) : List Animable → Except Unit (List Animable × List PoseWrite)
  | [] => .ok ([], [])
  | a :: rest =>
      match updateAnimable time_delta a with
      | .error e => .error e
      | .ok (a', w) =>
          match update time_delta rest with
          | .error e => .error e
          | .ok (rest', ws) => .ok (a' :: rest', w ++ ws)

/-- A sequence of `update` calls, keeping only the slot table. -/
def runUpdates (dts : List ℚ) (slots : List Animable) : Except Unit (List Animable) :=
  dts.foldl (fun acc dt => acc.bind (fun s => (update dt s).map (·.1))) (.ok slots)

/-- Modelled from the spec: the binary blob primitives (`OutputBlob` /
`InputBlob` of the engine core, consumed but not reimplemented) as a
list of typed items — a bool write, a 32-bit integer write, a 32-bit
float write (exact rational here), and a string write. -/
inductive BlobItem where
  | b : Bool → BlobItem
  | i32 : Int → BlobItem
  | f32 : ℚ → BlobItem
  | str : String → BlobItem
deriving DecidableEq, Repr

/-- `m_animation ? m_animation->getPath().c_str() : ""`. -/
def animPath : Option Animation → String
  | some a => a.path
  | none => ""

/-- One slot's fields in the order `serialize` writes them: `m_manual`,
`m_renderable.entity.index` (the renderable binding's entity, as in
the source — not the slot's own `m_entity`), `m_time`, `m_is_free`,
the clip path. -/
def serializeSlot (a : Animable) : List BlobItem :=
  [.b a.m_manual, .i32 a.m_renderable.entity, .f32 a.m_time, .b a.m_is_free,
   .str (animPath a.m_animation)]

/-- `AnimationSceneImpl::serialize`: the slot count then every slot. -/
def serialize (slots : List Animable) : List BlobItem :=
  .i32 (slots.length : Int) :: (slots.map serializeSlot).flatten

/-- Reading a bool item off the blob (type-mismatched or truncated data
is a read failure). -/
def readBool : List BlobItem → Option (Bool × List BlobItem)
  | .b x :: rest => some (x, rest)
  | _ => none

/-- Reading a 32-bit integer item off the blob. -/
def readI32 : List BlobItem → Option (Int × List BlobItem)
  | .i32 x :: rest => some (x, rest)
  | _ => none

/-- Reading a 32-bit float item off the blob. -/
def readF32 : List BlobItem → Option (ℚ × List BlobItem)
  | .f32 x :: rest => some (x, rest)
  | _ => none

/-- Reading a string item off the blob. -/
def readStr : List BlobItem → Option (String × List BlobItem)
  | .str s :: rest => some (s, rest)
  | _ => none

/-- The per-slot body of `deserialize`: read `m_manual`, the entity
index (into `m_entity`), re-resolve the renderable binding through the
render scene (left invalid when the query is invalid), read `m_time`
and `m_is_free`, read the clip path and load it unless empty. -/
def readSlot (rm : String → Animation) (rs : Int → Component)
    (blob : List BlobItem) : Option (Animable × List BlobItem) := do
  let (manual, blob) ← readBool blob
  let (eidx, blob) ← readI32 blob
  let renderable := rs eidx
  let (time, blob) ← readF32 blob
  let (isFree, blob) ← readBool blob
  let (path, blob) ← readStr blob
  some ({ m_manual := manual
          m_is_free := isFree
          m_renderable := if renderable.isValid then renderable else Component.INVALID
          m_time := time
          m_animation := if path = "" then none else some (rm path)
          m_entity := eidx }, blob)

/-- `deserialize`'s loop over the slot count. -/
def readSlots (rm : String → Animation) (rs : Int → Component) :
    Nat → List BlobItem → Option (List Animable × List BlobItem)
  | 0, blob => some ([], blob)
  | n + 1, blob => do
      let (a, blob) ← readSlot rm rs blob
      let (rest, blob) ← readSlots rm rs n blob
      some (a :: rest, blob)

/-- `AnimationSceneImpl::deserialize`: read the count, resize to it and
fill every slot in order (each slot is also re-registered through
`Universe::addComponent`, an external call not modelled).  A negative
count (an unrepresentable resize) is a failure. -/
def deserialize (rm : String → Animation) (rs : Int → Component)
    (blob : List BlobItem) : Option (List Animable) := do
  let (count, blob) ← readI32 blob
  if count < 0 then none
  else
    let (slots, _) ← readSlots rm rs count.toNat blob
    some slots

/-! ## Concrete instances used by counterexamples and witnesses -/

/-- A render scene with no renderable bound to any entity. -/
def rsNone : Int → Component := fun _ => Component.INVALID

/-- A resource manager whose clips are keyed by path, once loaded and
ready, of length 1 at 1 fps. -/
def rmStd : String → Animation :=
  fun p => { path := p, length := 1, frameCount := 1, fps := 1, ready := true }

/-- The clip path used by concrete instances. -/
def pathWalk : String := "walk.ani"

/-- A loaded, ready clip of length 2. -/
def readyAnim : Animation :=
  { path := pathWalk, length := 2, frameCount := 60, fps := 30, ready := true }

/-- A valid renderable binding on entity 1. -/
def rbValid : Component := ⟨1, RENDERABLE_HASH, 0⟩

/-- A free slot owned by entity 7. -/
def slotF7 : Animable := ⟨true, true, Component.INVALID, 0, none, 7⟩

/-- A live slot owned by entity 8. -/
def slotL8 : Animable := ⟨false, false, Component.INVALID, 0, none, 8⟩

/-- A live auto-advancing slot on entity 1 with a ready clip but an
invalid renderable binding. -/
def slotNoRb : Animable := ⟨false, false, Component.INVALID, 0, some readyAnim, 1⟩

/-- A live auto-advancing slot on entity 1 with a ready clip and a
valid renderable binding, at time 0. -/
def slotRb : Animable := ⟨false, false, rbValid, 0, some readyAnim, 1⟩

/-- A live slot on entity 5 with a clip and no renderable binding. -/
def slotE5 : Animable := ⟨false, false, Component.INVALID, 1, some (rmStd pathWalk), 5⟩

/-- A freed slot that still holds its last clip. -/
def slotFreeClip : Animable := ⟨false, true, Component.INVALID, 0, some readyAnim, 2⟩

/-! ## Structural lemmas about the table operations -/

theorem onComponentCreated_of_ne {cmp : Component} (h : cmp.ctype ≠ RENDERABLE_HASH)
    (slots : List Animable) : onComponentCreated cmp slots = slots := by
  simp [onComponentCreated, h]

/-- The table produced by `createAnimable`: the self-delivered
`componentCreated` notification carries an animable-typed handle, so it
does not touch the table. -/
theorem createAnimable_snd (rs : Int → Component) (slots : List Animable) (e : Int) :
    (createAnimable rs slots e).2.1 =
      match firstFreeIdx slots with
      | some i => slots.set i (initAnimable rs e)
      | none => slots ++ [initAnimable rs e] := by
  simp only [createAnimable]
  exact onComponentCreated_of_ne (by show ANIMABLE_HASH ≠ RENDERABLE_HASH; decide) _

theorem firstFreeIdx_lt {slots : List Animable} {i : Nat}
    (h : firstFreeIdx slots = some i) : i < slots.length := by
  induction slots generalizing i with
  | nil => simp [firstFreeIdx] at h
  | cons a rest ih =>
      by_cases hf : a.m_is_free = true
      · simp [firstFreeIdx, hf] at h
        simp only [List.length_cons]
        omega
      · simp [firstFreeIdx, hf, Option.map_eq_some'] at h
        obtain ⟨j, hj, rfl⟩ := h
        have := ih hj
        simp only [List.length_cons]
        omega

theorem firstFreeIdx_free {slots : List Animable} {i : Nat}
    (h : firstFreeIdx slots = some i) :
    (slots[i]?).map (·.m_is_free) = some true := by
  induction slots generalizing i with
  | nil => simp [firstFreeIdx] at h
  | cons a rest ih =>
      by_cases hf : a.m_is_free = true
      · simp [firstFreeIdx, hf] at h
        subst h
        simp [hf]
      · simp [firstFreeIdx, hf, Option.map_eq_some'] at h
        obtain ⟨j, hj, rfl⟩ := h
        simpa using ih hj

theorem initIndex_eq_of_some {slots : List Animable} {i : Nat}
    (h : firstFreeIdx slots = some i) : initIndex slots = i := by
  simp [initIndex, h]

theorem initIndex_eq_of_none {slots : List Animable}
    (h : firstFreeIdx slots = none) : initIndex slots = slots.length := by
  simp [initIndex, h]

theorem createAnimable_snd_of_some {rs : Int → Component} {slots : List Animable} {e : Int}
    {i : Nat} (hf : firstFreeIdx slots = some i) :
    (createAnimable rs slots e).2.1 = slots.set i (initAnimable rs e) := by
  rw [createAnimable_snd, hf]

theorem createAnimable_snd_of_none {rs : Int → Component} {slots : List Animable} {e : Int}
    (hf : firstFreeIdx slots = none) :
    (createAnimable rs slots e).2.1 = slots ++ [initAnimable rs e] := by
  rw [createAnimable_snd, hf]

/-- The slot `createAnimable` initializes sits at `initIndex` and holds
exactly the `initAnimable` contents. -/
theorem createAnimable_get_init (rs : Int → Component) (slots : List Animable) (e : Int) :
    ((createAnimable rs slots e).2.1).get? (initIndex slots) =
      some (initAnimable rs e) := by
  rw [createAnimable_snd]
  rcases hf : firstFreeIdx slots with - | i
  · rw [initIndex_eq_of_none hf]
    simp [List.get?_eq_getElem?, List.getElem?_concat_length]
  · rw [initIndex_eq_of_some hf]
    have hi := firstFreeIdx_lt hf
    simp [List.get?_eq_getElem?, List.getElem?_set_self hi]

/-- Number of live (non-free) slots owned by entity `e`. -/
def liveFor (e : Int) (slots : List Animable) : Nat :=
  slots.countP (fun a => !a.m_is_free && a.m_entity == e)

theorem countP_set_of {α : Type} (p : α → Bool) (s : List α) (i : Nat) (a b : α)
    (hget : s[i]? = some a) (ha : p a = false) (hb : p b = true) :
    (s.set i b).countP p = s.countP p + 1 := by
  induction s generalizing i with
  | nil => simp at hget
  | cons x rest ih =>
      cases i with
      | zero =>
          simp at hget
          subst hget
          simp [List.countP_cons, ha, hb]
      | succ n =>
          simp at hget
          simp only [List.set_cons_succ, List.countP_cons, ih n hget]
          omega

/-!
## C1 — slot contents written by create

Spec vocabulary: `auto_advance` is the negation of the source's
`m_manual` flag (`update` advances time exactly when `m_manual` is
false).  `createAnimable` sets `m_manual = true`, i.e. the fresh slot
starts in manual mode, not in auto-advance mode as claimed.
-/

/-- C1, counterexample: creating a slot for entity 3 in an empty scene
with no renderables yields a slot whose `m_manual` flag is `true` —
i.e. `auto_advance` is false, refuting the claim that `create`
initializes `auto_advance = true`. -/
theorem c1_create_auto_advance_counterexample :
    ((createAnimable rsNone [] 3).2.1.get? 0).map (·.m_manual) = some true ∧
      ¬ ((createAnimable rsNone [] 3).2.1.get? 0).map (·.m_manual) = some false := by
  decide

/-- C1 (amended): for every entity, `create(entity)` initializes the
allocated slot with `auto_advance = false` (the source sets
`m_manual = true`), `time = 0`, no assigned clip, owner entity as
given, slot live, and leaves `renderable_binding` invalid exactly when
the renderable owner has no binding for that entity at creation
time. -/
theorem c1_create_initializes_amended (rs : Int → Component) (slots : List Animable) (e : Int) :
    ∃ slot : Animable,
      ((createAnimable rs slots e).2.1).get? (initIndex slots) = some slot ∧
      slot.m_manual = true ∧ slot.m_time = 0 ∧ slot.m_animation = none ∧
      slot.m_is_free = false ∧ slot.m_entity = e ∧
      (slot.m_renderable.isValid = true ↔ (rs e).isValid = true) := by
  refine ⟨initAnimable rs e, createAnimable_get_init rs slots e, rfl, rfl, rfl, rfl, rfl, ?_⟩
  by_cases h : (rs e).isValid = true
  · simp only [initAnimable, if_pos h]
  · simp only [initAnimable, if_neg h]
    exact iff_of_false (by decide) h

/-!
## C2 — serialization round trip

`serialize` writes `m_renderable.entity.index` — the renderable
binding's entity, which is the invalid handle's entity (`-1`) whenever
the binding is invalid — while `deserialize` reads that field into the
slot's own `m_entity`.  The owning entity therefore does not survive a
round trip for a slot without a renderable binding.  Separately,
`destroyComponent` does not clear `m_animation`, so a freed slot
serializes its stale clip path, not `""`.
-/

/-- C2: a live slot owned by entity 5 with a clip and no renderable
binding serializes with entity index `-1` (the invalid binding's
entity) in the slot position the claim reserves for the owning
entity's raw index, and deserializing the stream yields a slot owned
by entity `-1`, not 5; moreover a freed slot that last held the clip
`walk.ani` serializes with that path, not with `""`. -/
theorem c2_serialize_roundtrip_divergence :
    serialize [slotE5] =
      [.i32 1, .b false, .i32 (-1), .f32 1, .b false, .str pathWalk] ∧
    slotE5.m_entity = 5 ∧
    (deserialize rmStd rsNone (serialize [slotE5])).map (fun l => l.map (·.m_entity)) =
      some [-1] ∧
    serializeSlot slotFreeClip =
      [.b false, .i32 (-1), .f32 0, .b true, .str pathWalk] ∧
    slotFreeClip.m_is_free = true ∧ pathWalk ≠ "" := by
  decide

/-!
## C3 — the handle returned by create

`createAnimable` initializes the first free slot when one exists, but
the handle it registers and returns is always built with index
`m_animables.size() - 1`, the last slot of the table.
-/

/-- C3: on a table whose slot 0 is free and whose slot 1 is live (owned
by entity 8), `create(9)` initializes slot 0 for entity 9 yet returns a
handle with index 1 — the handle denotes a different slot than the one
that was initialized. -/
theorem c3_create_handle_index_divergence :
    (createAnimable rsNone [slotF7, slotL8] 9).1.index = 1 ∧
    ((createAnimable rsNone [slotF7, slotL8] 9).2.1.get? 0).map (·.m_entity) = some 9 ∧
    ((createAnimable rsNone [slotF7, slotL8] 9).2.1.get? 0).map (·.m_is_free) = some false ∧
    ((createAnimable rsNone [slotF7, slotL8] 9).2.1.get? 1).map (·.m_entity) = some 8 ∧
    (createAnimable rsNone [slotF7, slotL8] 9).2.1.length = 2 := by
  decide

/-!
## C4 — update on a slot with an invalid renderable binding

`update` guards the pose step only by `!m_is_free && m_animation &&
m_animation->isReady()`; it then calls `getPose` through
`m_renderable.scene`, which is null for the invalid handle.  The pose
step is not skipped — the call dereferences the null scene.
-/

/-- C4: updating a table holding one live slot with a ready clip and an
invalid renderable binding crashes (the unchecked `getPose` through
the invalid binding's null scene) instead of skipping the pose step. -/
theorem c4_update_invalid_binding_divergence :
    update (1/10) [slotNoRb] = .error () ∧
    slotNoRb.m_is_free = false ∧
    slotNoRb.m_animation = some readyAnim ∧
    readyAnim.ready = true ∧
    slotNoRb.m_renderable.isValid = false := by
  exact ⟨rfl, rfl, rfl, rfl, by decide⟩

/-!
## C8 — one live slot per entity

`createAnimable` never checks whether the entity already owns a live
slot, so two `create` calls for the same entity yield two live slots.
-/

/-- C8, counterexample: two consecutive `create(5)` calls on an empty
scene leave two distinct live slots both owned by entity 5. -/
theorem c8_unique_live_slot_counterexample :
    liveFor 5 (createAnimable rsNone (createAnimable rsNone [] 5).2.1 5).2.1 = 2 ∧
    ((createAnimable rsNone (createAnimable rsNone [] 5).2.1 5).2.1.get? 0).map
        (fun a => (a.m_is_free, a.m_entity)) = some (false, 5) ∧
    ((createAnimable rsNone (createAnimable rsNone [] 5).2.1 5).2.1.get? 1).map
        (fun a => (a.m_is_free, a.m_entity)) = some (false, 5) := by
  decide

/-- C8 (amended): each `create(entity)` call makes live exactly one
slot for that entity — the number of live slots owned by the entity
grows by exactly one per call; no per-entity uniqueness is enforced,
so an entity that already owns a live slot gains a second one. -/
theorem c8_live_count_amended (rs : Int → Component) (slots : List Animable) (e : Int) :
    liveFor e (createAnimable rs slots e).2.1 = liveFor e slots + 1 := by
  rw [createAnimable_snd]
  rcases hf : firstFreeIdx slots with - | i
  · simp [liveFor, List.countP_append, List.countP_cons, initAnimable]
  · have hfree := firstFreeIdx_free hf
    rw [Option.map_eq_some'] at hfree
    obtain ⟨a, hga, hafree⟩ := hfree
    exact countP_set_of _ slots i a _ hga (by simp [hafree]) (by simp [initAnimable])

/-!
## C10 — createComponent on a foreign type
-/

/-- C10: for every component type other than the animable type,
`createComponent` returns the invalid handle, leaves the slot table
unchanged, and emits no component-created notification. -/
theorem c10_create_component_other_type (rs : Int → Component) (ctype : Nat) (e : Int)
    (slots : List Animable) (h : ctype ≠ ANIMABLE_HASH) :
    createComponent rs ctype e slots = (Component.INVALID, slots, []) := by
  simp [createComponent, h]

/-- C10, witness: the renderable type is not the animable type, and
creating a renderable-typed component through the animation scene
returns the invalid handle with the table untouched and no
notification. -/
theorem c10_create_component_other_type_witness :
    RENDERABLE_HASH ≠ ANIMABLE_HASH ∧
      createComponent rsNone RENDERABLE_HASH 5 [slotL8] = (Component.INVALID, [slotL8], []) :=
  ⟨by decide, c10_create_component_other_type rsNone RENDERABLE_HASH 5 [slotL8] (by decide)⟩

/-!
## C7 — lookup by entity

`getAnimable`'s scan compares only `m_entity`; the free flag is never
consulted, so a destroyed slot whose entity still matches is returned.
-/

theorem getAnimableFrom_eq_invalid_iff (e : Int) (k : Nat) (s : List Animable) :
    getAnimableFrom e k s = Component.INVALID ↔ ∀ a ∈ s, a.m_entity ≠ e := by
  induction s generalizing k with
  | nil => simp [getAnimableFrom]
  | cons x rest ih =>
      by_cases hx : x.m_entity = e
      · refine iff_of_false ?_ ?_
        · simp [getAnimableFrom, hx, Component.INVALID, Component.mk.injEq, ANIMABLE_HASH]
        · push_neg
          exact ⟨x, List.mem_cons_self x rest, hx⟩
      · simp only [getAnimableFrom, if_neg hx, ih (k + 1), List.mem_cons]
        constructor
        · rintro h a (rfl | ha)
          · exact hx
          · exact h a ha
        · exact fun h a ha => h a (Or.inr ha)

theorem getAnimableFrom_eq_some {e : Int} {k : Nat} {s : List Animable} {c : Component}
    (hc : getAnimableFrom e k s = c) (hne : c ≠ Component.INVALID) :
    ∃ i : Nat, ∃ h : i < s.length, (s.get ⟨i, h⟩).m_entity = e ∧
      c = ⟨e, ANIMABLE_HASH, ((k + i : Nat) : Int)⟩ := by
  induction s generalizing k with
  | nil => exact absurd hc.symm hne
  | cons x rest ih =>
      by_cases hx : x.m_entity = e
      · refine ⟨0, by simp, hx, ?_⟩
        rw [← hc]
        simp [getAnimableFrom, hx]
      · rw [getAnimableFrom, if_neg hx] at hc
        obtain ⟨i, h, hent, hcomp⟩ := ih hc
        refine ⟨i + 1, by simpa using Nat.succ_lt_succ h, hent, ?_⟩
        rw [hcomp]
        congr 1
        omega

/-- C7, counterexample: create a slot for entity 5, destroy it through
its handle (marking it free), then look entity 5 up: the freed slot is
returned as a non-invalid handle, refuting the claim that a destroyed
slot is never returned. -/
theorem c7_lookup_free_slot_counterexample :
    ((destroyComponent (createAnimable rsNone [] 5).2.1
        (createAnimable rsNone [] 5).1)[0]?).map (·.m_is_free) = some true ∧
    getAnimable (destroyComponent (createAnimable rsNone [] 5).2.1
        (createAnimable rsNone [] 5).1) 5 = ⟨5, ANIMABLE_HASH, 0⟩ ∧
    (⟨5, ANIMABLE_HASH, 0⟩ : Component) ≠ Component.INVALID := by
  decide

/-- C7 (amended): `lookup(entity)` returns a handle to a slot only if
that slot's entity field matches the queried entity — the free flag is
not consulted, so a destroyed (free) slot whose entity matches is
returned; the invalid handle is returned exactly when no slot (free or
live) matches. -/
theorem c7_lookup_amended (slots : List Animable) (e : Int) :
    (getAnimable slots e = Component.INVALID ↔ ∀ a ∈ slots, a.m_entity ≠ e) ∧
    (∀ c : Component, getAnimable slots e = c → c ≠ Component.INVALID →
      ∃ i : Nat, ∃ h : i < slots.length, (slots.get ⟨i, h⟩).m_entity = e ∧
        c = ⟨e, ANIMABLE_HASH, (i : Int)⟩) := by
  constructor
  · exact getAnimableFrom_eq_invalid_iff e 0 slots
  · intro c hc hne
    obtain ⟨i, h, hent, hcomp⟩ := getAnimableFrom_eq_some hc hne
    exact ⟨i, h, hent, by simpa using hcomp⟩

/-- C7, witness: on a one-slot table owned by entity 8, looking up
entity 8 returns the handle of slot 0, whose entity matches. -/
theorem c7_lookup_amended_witness :
    ∃ i : Nat, ∃ h : i < [slotL8].length, ([slotL8].get ⟨i, h⟩).m_entity = 8 ∧
      getAnimable [slotL8] 8 = ⟨8, ANIMABLE_HASH, (i : Int)⟩ :=
  (c7_lookup_amended [slotL8] 8).2 (getAnimable [slotL8] 8) rfl (by decide)

/-!
## C9 — binding-created notification

`onComponentCreated` attaches the renderable to the first slot whose
entity matches; it checks neither the free flag nor whether the slot's
current binding is already valid.
-/

theorem attachRenderable_append {cmp : Component} (s₁ : List Animable) (a : Animable)
    (s₂ : List Animable) (h₁ : ∀ x ∈ s₁, x.m_entity ≠ cmp.entity)
    (h₂ : a.m_entity = cmp.entity) :
    attachRenderable cmp (s₁ ++ a :: s₂) = s₁ ++ { a with m_renderable := cmp } :: s₂ := by
  induction s₁ with
  | nil => simp [attachRenderable, h₂]
  | cons x rest ih =>
      have hx : x.m_entity ≠ cmp.entity := h₁ x (List.mem_cons_self x rest)
      simp only [List.cons_append, attachRenderable, if_neg hx, List.append_eq]
      rw [ih (fun y hy => h₁ y (List.mem_cons_of_mem x hy))]

/-- A valid renderable component on entity 1 (an existing binding). -/
def rbOld : Component := ⟨1, RENDERABLE_HASH, 3⟩

/-- A second renderable component on entity 1. -/
def rbNew : Component := ⟨1, RENDERABLE_HASH, 9⟩

/-- A live slot on entity 1 whose renderable binding is already valid. -/
def slotBound : Animable := ⟨false, false, rbOld, 0, none, 1⟩

/-- A renderable component on entity 4 delivered by notification. -/
def cmpR4 : Component := ⟨4, RENDERABLE_HASH, 7⟩

/-- C9, counterexample: a renderable-created notification for entity 1
is attached to a slot whose binding is already valid (overwriting it),
refuting the claim that the binding is attached only to a slot whose
`renderable_binding` is currently invalid. -/
theorem c9_attach_valid_binding_counterexample :
    slotBound.m_renderable.isValid = true ∧
    ((onComponentCreated rbNew [slotBound])[0]?).map (·.m_renderable) = some rbNew ∧
    rbNew ≠ rbOld := by
  decide

/-- C9 (amended): a renderable-created notification for entity `e` is
attached to the first slot whose entity equals `e`, regardless of that
slot's current binding; consequently a slot created for `e` before the
entity's renderable exists (no other slot of the table owned by `e`)
ends with a valid renderable binding after the notification, with the
rest of its creation-time contents intact. -/
theorem c9_attach_first_match_amended (rs : Int → Component) (cmp : Component)
    (s : List Animable) (e : Int) (hnom : ∀ a ∈ s, a.m_entity ≠ e)
    (hct : cmp.ctype = RENDERABLE_HASH) (hce : cmp.entity = e) (hcv : cmp.isValid = true) :
    (onComponentCreated cmp (createAnimable rs s e).2.1)[initIndex s]? =
      some { initAnimable rs e with m_renderable := cmp } ∧
    ((onComponentCreated cmp (createAnimable rs s e).2.1)[initIndex s]?).map
      (fun a => a.m_renderable.isValid) = some true := by
  have key : (onComponentCreated cmp (createAnimable rs s e).2.1)[initIndex s]? =
      some { initAnimable rs e with m_renderable := cmp } := by
    rw [onComponentCreated, if_pos hct]
    rcases hf : firstFreeIdx s with - | i
    · rw [createAnimable_snd_of_none hf, initIndex_eq_of_none hf,
        show s ++ [initAnimable rs e] = s ++ initAnimable rs e :: [] from rfl,
        attachRenderable_append s (initAnimable rs e) []
          (fun x hx heq => hnom x hx (heq.trans hce)) (by simp [initAnimable, hce]),
        List.getElem?_append_right (Nat.le_refl _)]
      simp
    · have hi := firstFreeIdx_lt hf
      rw [createAnimable_snd_of_some hf, initIndex_eq_of_some hf,
        List.set_eq_take_cons_drop _ hi,
        attachRenderable_append (s.take i) (initAnimable rs e) (s.drop (i + 1))
          (fun x hx heq => hnom x (List.mem_of_mem_take hx) (heq.trans hce))
          (by simp [initAnimable, hce]),
        List.getElem?_append_right (by simp [List.length_take])]
      simp [List.length_take, Nat.min_eq_left (le_of_lt hi)]
  exact ⟨key, by rw [key]; simp [hcv]⟩

/-- C9, witness: entity 4's slot is created in an empty scene with no
renderables, then the renderable `cmpR4` on entity 4 is announced; the
slot ends bound to `cmpR4` with a valid binding. -/
theorem c9_attach_first_match_witness :
    cmpR4.ctype = RENDERABLE_HASH ∧ cmpR4.entity = 4 ∧ cmpR4.isValid = true ∧
    ((onComponentCreated cmpR4 (createAnimable rsNone [] 4).2.1)[initIndex ([] : List Animable)]? =
        some { initAnimable rsNone 4 with m_renderable := cmpR4 } ∧
      ((onComponentCreated cmpR4 (createAnimable rsNone [] 4).2.1)[initIndex ([] : List Animable)]?).map
        (fun a => a.m_renderable.isValid) = some true) :=
  ⟨rfl, rfl, by decide,
    c9_attach_first_match_amended rsNone cmpR4 [] 4 (by simp) rfl rfl (by decide)⟩

/-!
## C6 — playAnimation
-/

/-- C6: for every slot and clip path, `playAnimation` on the slot's
handle sets the slot's clip to the loader's result for that path,
resets its time to 0, and clears the manual flag (i.e. sets
`auto_advance` to true), regardless of the slot's prior time, mode or
clip; all other fields are untouched. -/
theorem c6_play_animation_resets (rm : String → Animation) (slots : List Animable)
    (ce : Int) (ct : Nat) (i : Nat) (path : String) (h : i < slots.length) :
    (playAnimation rm slots ⟨ce, ct, (i : Int)⟩ path)[i]? =
      some { slots.get ⟨i, h⟩ with
             m_animation := some (rm path), m_time := 0, m_manual := false } := by
  have hg : slots.get? ((⟨ce, ct, (i : Int)⟩ : Component).index.toNat) =
      some (slots.get ⟨i, h⟩) := by
    show slots.get? i = _
    exact List.get?_eq_get h
  simp only [playAnimation, hg]
  exact List.getElem?_set_self (by simpa using h)

/-- A live slot on entity 1 in manual mode at time 7 with a clip. -/
def slotManual : Animable := ⟨true, false, rbValid, 7, some readyAnim, 1⟩

/-- C6, witness: assigning `walk.ani` to a manual slot stopped at time
7 yields the loaded clip, time 0 and automatic mode. -/
theorem c6_play_animation_resets_witness :
    0 < [slotManual].length ∧
    (playAnimation rmStd [slotManual] ⟨1, ANIMABLE_HASH, ((0 : Nat) : Int)⟩ pathWalk)[0]? =
      some { slotManual with
             m_animation := some (rmStd pathWalk), m_time := 0, m_manual := false } :=
  ⟨by decide, c6_play_animation_resets rmStd [slotManual] 1 ANIMABLE_HASH 0 pathWalk (by decide)⟩

/-!
## C5 — looping time advance

Machine floats are modelled as exact rationals, so "within
floating-point tolerance" is exact equality here.  The wrap loop
`while (t > l) t -= l` leaves values in `(0, l]` for positive input:
when the accumulated time is an exact positive multiple of the clip
length the loop stops at `l`, not at `0 = T mod L`.
-/

/-- Exact remainder of `a` modulo `l` over the rationals. -/
def qmod (a l : ℚ) : ℚ := a - l * Int.floor (a / l)

theorem qmod_eq_fract (a l : ℚ) (hl : l ≠ 0) : qmod a l = l * Int.fract (a / l) := by
  rw [qmod, Int.fract, mul_sub]
  congr 1
  field_simp

theorem qmod_nonneg (a l : ℚ) (hl : 0 < l) : 0 ≤ qmod a l := by
  rw [qmod_eq_fract a l (ne_of_gt hl)]
  exact mul_nonneg hl.le (Int.fract_nonneg _)

theorem qmod_lt (a l : ℚ) (hl : 0 < l) : qmod a l < l := by
  rw [qmod_eq_fract a l (ne_of_gt hl)]
  calc l * Int.fract (a / l) < l * 1 := by
        exact (mul_lt_mul_left hl).mpr (Int.fract_lt_one _)
    _ = l := mul_one l

theorem qmod_eq_qmod_iff (a b l : ℚ) (hl : l ≠ 0) :
    qmod a l = qmod b l ↔ ∃ z : ℤ, a - b = z * l := by
  rw [qmod_eq_fract a l hl, qmod_eq_fract b l hl, mul_right_inj' hl, Int.fract_eq_fract]
  constructor
  · rintro ⟨z, hz⟩
    refine ⟨z, ?_⟩
    rw [← sub_div] at hz
    calc a - b = (a - b) / l * l := by field_simp
      _ = (z : ℚ) * l := by rw [hz]
  · rintro ⟨z, hz⟩
    refine ⟨z, ?_⟩
    rw [← sub_div, hz]
    field_simp

theorem qmod_self (l : ℚ) (hl : 0 < l) : qmod l l = 0 := by
  rw [qmod, div_self (ne_of_gt hl)]
  simp

theorem qmod_small (t l : ℚ) (h0 : 0 ≤ t) (h1 : t < l) : qmod t l = t := by
  have hl : 0 < l := lt_of_le_of_lt h0 h1
  rw [qmod_eq_fract t l (ne_of_gt hl),
    Int.fract_eq_self.mpr ⟨div_nonneg h0 hl.le, (div_lt_one hl).mpr h1⟩]
  field_simp

theorem wrapTime_le (l : ℚ) (hl : 0 < l) : ∀ t : ℚ, wrapTime l t ≤ l := by
  intro t
  induction t using wrapTime.induct l with
  | case1 t h ih =>
      rw [wrapTime, dif_pos h]
      exact ih
  | case2 t h =>
      rw [wrapTime, dif_neg h]
      exact le_of_not_lt (fun hlt => h ⟨hl, hlt⟩)

theorem wrapTime_nonneg (l : ℚ) (hl : 0 < l) : ∀ t : ℚ, 0 ≤ t → 0 ≤ wrapTime l t := by
  intro t
  induction t using wrapTime.induct l with
  | case1 t h ih =>
      intro ht
      rw [wrapTime, dif_pos h]
      exact ih (by linarith [h.2, h.1])
  | case2 t h =>
      intro ht
      rw [wrapTime, dif_neg h]
      exact ht

theorem wrapTime_pos (l : ℚ) (hl : 0 < l) : ∀ t : ℚ, 0 < t → 0 < wrapTime l t := by
  intro t
  induction t using wrapTime.induct l with
  | case1 t h ih =>
      intro ht
      rw [wrapTime, dif_pos h]
      exact ih (by linarith [h.2])
  | case2 t h =>
      intro ht
      rw [wrapTime, dif_neg h]
      exact ht

theorem wrapTime_sub (l : ℚ) : ∀ t : ℚ, ∃ n : ℕ, wrapTime l t = t - n * l := by
  intro t
  induction t using wrapTime.induct l with
  | case1 t h ih =>
      obtain ⟨n, hn⟩ := ih
      refine ⟨n + 1, ?_⟩
      rw [wrapTime, dif_pos h, hn]
      push_cast
      ring
  | case2 t h =>
      refine ⟨0, ?_⟩
      rw [wrapTime, dif_neg h]
      simp

theorem wrapTime_zero (l : ℚ) (hl : 0 < l) : wrapTime l 0 = 0 := by
  rw [wrapTime, dif_neg]
  rintro ⟨-, h2⟩
  linarith

theorem qmod_wrapTime (l t : ℚ) (hl : 0 < l) : qmod (wrapTime l t) l = qmod t l := by
  obtain ⟨n, hn⟩ := wrapTime_sub l t
  rw [hn, qmod_eq_qmod_iff _ _ _ (ne_of_gt hl)]
  exact ⟨-n, by push_cast; ring⟩

theorem updateAnimable_auto (dt : ℚ) (a : Animable) (anim : Animation)
    (ha : a.m_animation = some anim) (hr : anim.ready = true) (hfree : a.m_is_free = false)
    (hv : a.m_renderable.isValid = true) (hm : a.m_manual = false) :
    updateAnimable dt a =
      .ok ({ a with m_time := wrapTime anim.length (a.m_time + dt) },
        [(a.m_renderable, a.m_time)]) := by
  simp [updateAnimable, ha, hr, hfree, hv, hm]

theorem runUpdates_cons_ok {d : ℚ} {s s' : List Animable} {ws : List PoseWrite}
    {dts : List ℚ} (hd : update d s = .ok (s', ws)) :
    runUpdates (d :: dts) s = runUpdates dts s' := by
  simp [runUpdates, hd, Except.map, Except.bind]

/-- A single-slot table holding a live auto-advancing slot with a ready
clip and a valid binding folds its time through the wrap loop across
any sequence of updates. -/
theorem runUpdates_auto_slot (anim : Animation) (rb : Component) (e : Int)
    (hr : anim.ready = true) (hv : rb.isValid = true) :
    ∀ (dts : List ℚ) (t : ℚ),
      runUpdates dts [⟨false, false, rb, t, some anim, e⟩] =
        .ok [⟨false, false, rb,
          dts.foldl (fun u d => wrapTime anim.length (u + d)) t, some anim, e⟩] := by
  intro dts
  induction dts with
  | nil =>
      intro t
      simp [runUpdates]
  | cons d rest ih =>
      intro t
      have h1 : updateAnimable d ⟨false, false, rb, t, some anim, e⟩ =
          .ok (⟨false, false, rb, wrapTime anim.length (t + d), some anim, e⟩, [(rb, t)]) :=
        updateAnimable_auto d _ anim rfl hr rfl hv rfl
      have h2 : update d [⟨false, false, rb, t, some anim, e⟩] =
          .ok ([⟨false, false, rb, wrapTime anim.length (t + d), some anim, e⟩], [(rb, t)]) := by
        simp [update, h1]
      rw [runUpdates_cons_ok h2, ih (wrapTime anim.length (t + d)), List.foldl_cons]

/-- The wrap-loop fold keeps time in `[0, l]`, congruent to the
accumulated delta modulo `l`, zero only for a zero total, and positive
for a positive total. -/
theorem foldl_wrap_spec (l : ℚ) (hl : 0 < l) :
    ∀ (dts : List ℚ), (∀ d ∈ dts, 0 ≤ d) → ∀ (u T : ℚ),
      0 ≤ u → u ≤ l → qmod u l = qmod T l → (T = 0 → u = 0) → (0 < T → 0 < u) → 0 ≤ T →
      (0 ≤ dts.foldl (fun x d => wrapTime l (x + d)) u ∧
       dts.foldl (fun x d => wrapTime l (x + d)) u ≤ l ∧
       qmod (dts.foldl (fun x d => wrapTime l (x + d)) u) l = qmod (T + dts.sum) l ∧
       (T + dts.sum = 0 → dts.foldl (fun x d => wrapTime l (x + d)) u = 0) ∧
       (0 < T + dts.sum → 0 < dts.foldl (fun x d => wrapTime l (x + d)) u)) := by
  intro dts
  induction dts with
  | nil =>
      intro _ u T h1 h2 h3 h4 h5 h6
      simpa using ⟨h1, h2, h3, h4, h5⟩
  | cons d rest ih =>
      intro hd u T h1 h2 h3 h4 h5 h6
      have hd0 : 0 ≤ d := hd d (List.mem_cons_self _ _)
      have hdr : ∀ x ∈ rest, 0 ≤ x := fun x hx => hd x (List.mem_cons_of_mem _ hx)
      have e1 : 0 ≤ wrapTime l (u + d) := wrapTime_nonneg l hl (u + d) (by linarith)
      have e2 : wrapTime l (u + d) ≤ l := wrapTime_le l hl (u + d)
      have e3 : qmod (wrapTime l (u + d)) l = qmod (T + d) l := by
        rw [qmod_wrapTime l (u + d) hl]
        rw [qmod_eq_qmod_iff _ _ _ (ne_of_gt hl)] at h3 ⊢
        obtain ⟨z, hz⟩ := h3
        exact ⟨z, by linarith⟩
      have e4 : T + d = 0 → wrapTime l (u + d) = 0 := by
        intro h0
        have hT0 : T = 0 := by linarith
        have hdz : d = 0 := by linarith
        rw [h4 hT0, hdz, add_zero]
        exact wrapTime_zero l hl
      have e5 : 0 < T + d → 0 < wrapTime l (u + d) := by
        intro h0
        refine wrapTime_pos l hl (u + d) ?_
        rcases lt_or_le 0 T with hT | hT
        · have := h5 hT
          linarith
        · have hT0 : T = 0 := le_antisymm hT h6
          rw [hT0, zero_add] at h0
          linarith
      have hrec := ih hdr (wrapTime l (u + d)) (T + d) e1 e2 e3 e4 e5 (by linarith)
      simpa [List.foldl_cons, List.sum_cons, add_assoc] using hrec

/-- C5, counterexample: one `update(2)` call on a fresh auto-advancing
slot with a ready clip of length 2 (total advance `T = 2`, an exact
multiple of `L = 2`) leaves `time = 2`, whereas the claimed value
`T mod L` is 0: the wrap loop stops at `L`, not at 0, on exact
multiples. -/
theorem c5_time_mod_counterexample :
    runUpdates [2] [slotRb] = .ok [{ slotRb with m_time := 2 }] ∧
    readyAnim.length = 2 ∧ List.sum [(2 : ℚ)] = 2 ∧
    qmod 2 readyAnim.length = 0 ∧ (2 : ℚ) ≠ 0 := by
  refine ⟨?_, rfl, by norm_num, ?_, by norm_num⟩
  · have h1 : updateAnimable 2 slotRb =
        .ok ({ slotRb with m_time := 2 }, [(rbValid, 0)]) := by
      have h0 : wrapTime readyAnim.length ((0 : ℚ) + 2) = 2 := by
        rw [wrapTime]
        norm_num [readyAnim]
      have := updateAnimable_auto 2 slotRb readyAnim rfl rfl rfl (by decide) rfl
      rw [this]
      simp only [slotRb]
      rw [h0]
    have h2 : update 2 [slotRb] = .ok ([{ slotRb with m_time := 2 }], [(rbValid, 0)]) := by
      simp [update, h1]
    simp [runUpdates, h2, Except.map, Except.bind]
  · show qmod 2 2 = 0
    exact qmod_self 2 (by norm_num)

/-- C5 (amended): for a slot with `auto_advance = true` (manual flag
off), a ready assigned clip of length `L > 0` and a valid renderable
binding (required, since `update` samples the pose through the binding
before advancing time), after any sequence of `update(dt)` calls with
non-negative deltas summing to `T`, the slot's time (exact-rational
model of the float arithmetic) equals `T mod L` — except that when `T`
is a positive exact multiple of `L` the repeated-subtraction wrap
leaves time at `L` instead of `0` (and `time = 0` for `T = 0`). -/
theorem c5_time_mod_amended (rb : Component) (anim : Animation) (e : Int) (dts : List ℚ)
    (hv : rb.isValid = true) (hr : anim.ready = true) (hl : 0 < anim.length)
    (hd : ∀ d ∈ dts, 0 ≤ d) :
    runUpdates dts [⟨false, false, rb, 0, some anim, e⟩] =
      .ok [⟨false, false, rb,
        if dts.sum = 0 then 0
        else if qmod dts.sum anim.length = 0 then anim.length
        else qmod dts.sum anim.length,
        some anim, e⟩] := by
  rw [runUpdates_auto_slot anim rb e hr hv dts 0]
  suffices hfinal : dts.foldl (fun u d => wrapTime anim.length (u + d)) 0 =
      (if dts.sum = 0 then 0
       else if qmod dts.sum anim.length = 0 then anim.length
       else qmod dts.sum anim.length) by
    rw [hfinal]
  have hS : 0 ≤ dts.sum := List.sum_nonneg hd
  have hrec := foldl_wrap_spec anim.length hl dts hd 0 0 le_rfl hl.le rfl
    (fun _ => rfl) (fun h => absurd h (lt_irrefl 0)) le_rfl
  rw [zero_add] at hrec
  obtain ⟨e1, e2, e3, e4, e5⟩ := hrec
  by_cases hz : dts.sum = 0
  · rw [if_pos hz]
    exact e4 hz
  · rw [if_neg hz]
    have hSpos : 0 < dts.sum := lt_of_le_of_ne hS (Ne.symm hz)
    have hupos := e5 hSpos
    by_cases hq : qmod dts.sum anim.length = 0
    · rw [if_pos hq]
      rcases lt_or_eq_of_le e2 with hlt | heq
      · exfalso
        have hsmall := qmod_small _ anim.length e1 hlt
        rw [e3, hq] at hsmall
        exact absurd hsmall.symm (ne_of_gt hupos)
      · exact heq
    · rw [if_neg hq]
      rcases lt_or_eq_of_le e2 with hlt | heq
      · have hsmall := qmod_small _ anim.length e1 hlt
        rw [← hsmall, e3]
      · exfalso
        rw [heq, qmod_self anim.length hl] at e3
        exact hq e3.symm

/-- C5, witness: a single `update(1)` on a fresh slot with the length-2
ready clip and a valid binding: the sum 1 is neither zero nor a
multiple of 2, so the slot's time is `qmod 1 2`. -/
theorem c5_time_mod_witness :
    rbValid.isValid = true ∧ readyAnim.ready = true ∧ (0 : ℚ) < readyAnim.length ∧
    (∀ d ∈ [(1 : ℚ)], 0 ≤ d) ∧
    runUpdates [(1 : ℚ)] [⟨false, false, rbValid, 0, some readyAnim, 1⟩] =
      .ok [⟨false, false, rbValid,
        if List.sum [(1 : ℚ)] = 0 then 0
        else if qmod (List.sum [(1 : ℚ)]) readyAnim.length = 0 then readyAnim.length
        else qmod (List.sum [(1 : ℚ)]) readyAnim.length,
        some readyAnim, 1⟩] :=
  ⟨by decide, rfl, by norm_num [readyAnim], by norm_num,
    c5_time_mod_amended rbValid readyAnim 1 [(1 : ℚ)] (by decide) rfl
      (by norm_num [readyAnim]) (by norm_num)⟩

end Lumix
